import Mathlib

/-!
Verification development for the phase-maker generation engine
(src/utils/phaseGenerator.ts).

The engine is shallowly embedded: the ambient source of randomness
(JavaScript Math.random) is modelled as a stream of rational draws
f : ℕ → ℚ together with a position counter; every function that draws
randomness takes the stream and the current position and returns its
result together with the new position.  JavaScript numbers are modelled
by exact arithmetic (ℤ/ℚ, with ℝ for the fractional-exponent powers
computed by Math.pow).  The deterministic seeded generator substitutes a
stream derived from the seed string for the ambient stream, mirroring
the Math.random swap in the source.
-/

namespace PhaseMaker

/-- Requirement type, from src/types/phase.ts (PhaseType). -/
inductive PhaseType where
  | set
  | run
  | color
  | evenOdd
  | colorRun
  | colorEvenOdd
  deriving DecidableEq, BEq, Repr

/-- One requirement clause of a phase, from src/types/phase.ts (PhaseComponent). -/
structure PhaseComponent where
  type : PhaseType
  count : ℤ
  size : ℤ
  description : String
  deriving DecidableEq, Repr

/-- One challenge, from src/types/phase.ts (Phase). -/
structure Phase where
  id : ℤ
  description : String
  difficulty : ℤ
  cardCount : ℤ
  rerollId : Option String := none
  deriving DecidableEq, Repr

/-- A full ten-phase set, from src/types/phase.ts (PhaseSet).
`createdAt` (a Date in the source) is modelled as an integer timestamp
supplied by the ambient state. -/
structure PhaseSet where
  id : String
  name : String
  phases : List Phase
  createdAt : ℤ
  version : String
  rerolls : Option (List (ℤ × String)) := none
  deriving DecidableEq, Repr

/-- Catalog entry, from the PHASE_COMPONENTS table in phaseGenerator.ts. -/
structure ComponentTypeSpec where
  type : PhaseType
  minSize : ℤ
  maxSize : ℤ
  baseDifficulty : ℤ
  describe : ℤ → ℤ → String

/-- The six describe functions of the catalog. -/
def describeSet (count size : ℤ) : String :=
  if count = 1 then "1 set of " ++ toString size
  else toString count ++ " sets of " ++ toString size

def describeRun (count size : ℤ) : String :=
  if count = 1 then "1 run of " ++ toString size
  else toString count ++ " runs of " ++ toString size

def describeColor (_count size : ℤ) : String :=
  toString size ++ " cards of one color"

def describeEvenOdd (_count size : ℤ) : String :=
  toString size ++ " even or odd cards"

def describeColorRun (count size : ℤ) : String :=
  if count = 1 then "1 color run of " ++ toString size
  else toString count ++ " color runs of " ++ toString size

def describeColorEvenOdd (_count size : ℤ) : String :=
  toString size ++ " even or odd cards of one color"

/-- The component catalog (PHASE_COMPONENTS in phaseGenerator.ts). -/
def PHASE_COMPONENTS : List ComponentTypeSpec :=
  [ ⟨PhaseType.set, 2, 4, 2, describeSet⟩,
    ⟨PhaseType.run, 3, 8, 1, describeRun⟩,
    ⟨PhaseType.color, 4, 8, 3, describeColor⟩,
    ⟨PhaseType.evenOdd, 4, 8, 3, describeEvenOdd⟩,
    ⟨PhaseType.colorRun, 3, 6, 4, describeColorRun⟩,
    ⟨PhaseType.colorEvenOdd, 3, 6, 5, describeColorEvenOdd⟩ ]

/-- Catalog lookup, as PHASE_COMPONENTS.find(pc => pc.type === t). -/
def findSpec (t : PhaseType) : Option ComponentTypeSpec :=
  PHASE_COMPONENTS.find? (fun pc => pc.type == t)

/-- Rendered description for a type (used where the source re-renders after a
size adjustment: PHASE_COMPONENTS.find(...)?.description(c, s) ||
fallback). -/
def describeFor (t : PhaseType) (count size : ℤ) (fallback : String) : String :=
  match findSpec t with
  | none => fallback
  | some ct => ct.describe count size

/-! ## String helpers: the regex replace of createVariationOfPhase -/

/-- Value of a string of decimal digit characters. -/
def digitsToNat (ds : List Char) : ℕ :=
  ds.foldl (fun a c => a * 10 + (c.toNat - 48)) 0

/-- Replace the first maximal run of decimal digits by the rendering of
`g` applied to its value — the semantics of
description.replace(/(\d+)/, (_, num) => String(g(parseInt(num)))). -/
def replaceFirstNumberAux (g : ℕ → ℕ) : List Char → List Char
  | [] => []
  | c :: cs =>
    if c.isDigit then
      (toString (g (digitsToNat ((c :: cs).takeWhile Char.isDigit)))).toList
        ++ (c :: cs).dropWhile Char.isDigit
    else c :: replaceFirstNumberAux g cs

def replaceFirstNumber (s : String) (g : ℕ → ℕ) : String :=
  String.mk (replaceFirstNumberAux g s.toList)

/-! ## Base-36 fraction rendering: Math.random().toString(36).substring(2, 8)

A draw u ∈ [0,1) prints as "0." followed by the base-36 digits of its
fractional expansion, with the expansion cut where it terminates;
substring(2, 8) keeps at most the first six fractional digits.  For
u = 0 the rendering is "0" and the substring is empty. -/

def base36DigitChar (d : ℕ) : Char :=
  if d < 10 then Char.ofNat (48 + d) else Char.ofNat (87 + d)

/-- First `k` base-36 fractional digits of `q`. -/
def base36FracDigits : ℚ → ℕ → List ℕ
  | _, 0 => []
  | q, k + 1 =>
    let d := (⌊q * 36⌋).toNat
    d :: base36FracDigits (q * 36 - (d : ℚ)) k

def dropTrailingZeros (l : List ℕ) : List ℕ :=
  (l.reverse.dropWhile (fun d => d = 0)).reverse

/-- Math.random().toString(36).substring(2, 8) applied to a draw
q ∈ [0,1): the first six base-36 fractional digits, with trailing zero
digits dropped when the expansion terminates within six digits (the
printed expansion stops there), and "" for q = 0 (which prints "0"). -/
def jsRandomToken (q : ℚ) : String :=
  if q = 0 then ""
  else
    let ds := base36FracDigits q 6
    let ds2 := if (q * (36 : ℚ) ^ (6 : ℕ)).den = 1 then dropTrailingZeros ds else ds
    String.mk (ds2.map base36DigitChar)

/-- generateRerollId: one ambient draw rendered as a base-36 token. -/
def generateRerollId (f : ℕ → ℚ) (n : ℕ) : String × ℕ :=
  (jsRandomToken (f n), n + 1)

/-- generateUniqueId: two ambient draws joined by a dash. -/
def generateUniqueId (f : ℕ → ℚ) (n : ℕ) : String × ℕ :=
  (jsRandomToken (f n) ++ "-" ++ jsRandomToken (f (n + 1)), n + 2)

/-! ## The seeded PRNG (seedRandom in phaseGenerator.ts) -/

/-- Sum of the character codes of the seed string. -/
def charCodeSum (s : String) : ℕ :=
  s.data.foldl (fun a c => a + c.toNat) 0

/-- One step of the linear-congruential recurrence. -/
def lcgNext (s : ℕ) : ℕ := (s * 9301 + 49297) % 233280

def lcgIter (s : ℕ) : ℕ → ℕ
  | 0 => s
  | k + 1 => lcgNext (lcgIter s k)

/-- The draw stream of seedRandom(seed) for a given initial accumulator:
the k-th draw is the accumulator after k+1 steps, divided by 233280. -/
def lcgStream (s0 : ℕ) : ℕ → ℚ :=
  fun k => ((lcgIter s0 (k + 1) : ℕ) : ℚ) / 233280

/-- seedRandom(seed): the accumulator starts at the character-code sum. -/
def seedStream (seed : String) : ℕ → ℚ :=
  lcgStream (charCodeSum seed)

/-! ## The weighted sampler (getWeightedRandom) -/

/-- weight = Math.max(0.3, 1 - (phase - 1) * 0.1). -/
def weightOf (phase : ℤ) : ℚ :=
  max (3 / 10) (1 - ((phase : ℚ) - 1) * (1 / 10))

/-- Math.pow(u, w) for a draw u and a fractional exponent w. -/
noncomputable def powDraw (u w : ℚ) : ℝ :=
  Real.rpow (u : ℝ) (w : ℝ)

/-- getWeightedRandom(min, max, phase): returns min when min > max or
min = max (without drawing); otherwise draws once and returns
min + floor(u^weight * (max - min + 1)). -/
noncomputable def getWeightedRandom (f : ℕ → ℚ) (lo hi phase : ℤ) (n : ℕ) :
    ℤ × ℕ :=
  if hi < lo then (lo, n)
  else if lo = hi then (lo, n)
  else
    (lo + ⌊powDraw (f n) (weightOf phase) * ((hi - lo + 1 : ℤ) : ℝ)⌋, n + 1)

/-! ## The difficulty scorer (calculateDifficulty) -/

/-- Complexity contribution of one component, as computed inside the
forEach of calculateDifficulty. -/
noncomputable def componentComplexity (ct : ComponentTypeSpec)
    (comp : PhaseComponent) : ℝ :=
  (ct.baseDifficulty : ℝ)
    + (if comp.type = PhaseType.set then
        Real.rpow ((comp.size : ℝ) - 2) 1.8
       else ((comp.size : ℝ) - (ct.minSize : ℝ)) * 0.4)
    + (if 1 < comp.count then ((comp.count : ℝ) - 1) * 1.2 else 0)

/-- The forEach accumulation of (totalComplexity, totalCards); a
component whose type is missing from the catalog is skipped. -/
noncomputable def calcFold (acc : ℝ × ℤ) (comp : PhaseComponent) : ℝ × ℤ :=
  match findSpec comp.type with
  | none => acc
  | some ct => (acc.1 + componentComplexity ct comp, acc.2 + comp.count * comp.size)

/-- calculateDifficulty: pure function of the component list. -/
noncomputable def calculateDifficulty (components : List PhaseComponent) : ℤ :=
  let tc := components.foldl calcFold (0, 0)
  let totalComplexity :=
    tc.1
      + (if 1 < components.length then ((components.length : ℝ) - 1) * 1.0 else 0)
      + max 0 (((tc.2 : ℝ) - 6) * 0.3)
  round (min (10 : ℝ) (max (1 : ℝ) (totalComplexity * 0.8 + 1)))

/-! Reference formula for the difficulty scorer, written from the words
of spec §4.6 (base difficulty and minimum size are read off the spec's
catalog table §4.1). -/

/-- Base difficulty per type, from the spec catalog table. -/
def specBaseDifficulty : PhaseType → ℤ
  | PhaseType.set => 2
  | PhaseType.run => 1
  | PhaseType.color => 3
  | PhaseType.evenOdd => 3
  | PhaseType.colorRun => 4
  | PhaseType.colorEvenOdd => 5

/-- Minimum size per type, from the spec catalog table. -/
def specMinSize : PhaseType → ℤ
  | PhaseType.set => 2
  | PhaseType.run => 3
  | PhaseType.color => 4
  | PhaseType.evenOdd => 4
  | PhaseType.colorRun => 3
  | PhaseType.colorEvenOdd => 3

/-- Spec §4.6: complexity = baseDifficulty + sizeTerm + countTerm, with
sizeTerm = (size-2)^1.8 for matching-sets and (size-minSize)*0.4
otherwise, and countTerm = (count-1)*1.2 when count > 1, else 0. -/
noncomputable def spec_componentComplexity (comp : PhaseComponent) : ℝ :=
  (specBaseDifficulty comp.type : ℝ)
    + (if comp.type = PhaseType.set then
        Real.rpow ((comp.size : ℝ) - 2) 1.8
       else ((comp.size : ℝ) - (specMinSize comp.type : ℝ)) * 0.4)
    + (if 1 < comp.count then ((comp.count : ℝ) - 1) * 1.2 else 0)

/-- Spec §4.6: sum component complexities, add (numComponents-1)*1.0 when
more than one component, add max(0, (totalCards-6)*0.3), and finish with
round(clamp(1, 10, total*0.8 + 1)). -/
noncomputable def spec_calculateDifficulty (components : List PhaseComponent) : ℤ :=
  let total := (components.map spec_componentComplexity).sum
  let totalCards := (components.map (fun c => c.count * c.size)).sum
  let totalComplexity :=
    total
      + (if 1 < components.length then ((components.length : ℝ) - 1) * 1.0 else 0)
      + max 0 (((totalCards : ℝ) - 6) * 0.3)
  round (min (10 : ℝ) (max (1 : ℝ) (totalComplexity * 0.8 + 1)))

/-! ## The phase component generator (generatePhaseComponent) -/

/-- Σ count×size over the committed components. -/
def sumCards (comps : List PhaseComponent) : ℤ :=
  comps.foldl (fun a c => a + c.count * c.size) 0

/-- The phase-position-dependent catalog restriction (the index-based
filter in generatePhaseComponent). -/
def availableTypesFor (phaseNumber : ℤ) : List ComponentTypeSpec :=
  if phaseNumber ≤ 3 then PHASE_COMPONENTS.take 2
  else if phaseNumber ≤ 5 then PHASE_COMPONENTS.take 3
  else if phaseNumber ≤ 7 then PHASE_COMPONENTS.take 4
  else PHASE_COMPONENTS

/-- The variety filter: at positions ≤ 5 with existing components and
more than one candidate, prefer types not already used (falling back to
the unfiltered subset when that leaves nothing), then the final safety
check against an empty candidate list. -/
def filteredTypesFor (phaseNumber : ℤ) (existing : List PhaseComponent) :
    List ComponentTypeSpec :=
  let availableTypes := availableTypesFor phaseNumber
  let filtered :=
    if phaseNumber ≤ 5 ∧ existing ≠ [] ∧ 1 < availableTypes.length then
      let differentTypes :=
        availableTypes.filter (fun t => ¬ existing.any (fun c => c.type == t.type))
      if differentTypes.isEmpty then availableTypes else differentTypes
    else availableTypes
  if filtered.isEmpty then
    (if availableTypes.isEmpty then PHASE_COMPONENTS.take 2 else availableTypes)
  else filtered

/-- Default catalog entry (never actually selected: list indexing with a
valid draw is always in range; getD only needs a total default). -/
def defaultSpec : ComponentTypeSpec :=
  ⟨PhaseType.set, 2, 4, 2, describeSet⟩

/-- Uniform pick: list[Math.floor(u * list.length)]. -/
def pickAt (l : List ComponentTypeSpec) (u : ℚ) : ComponentTypeSpec :=
  l.getD (⌊u * (l.length : ℚ)⌋).toNat defaultSpec

/-- Type selection: at positions ≥ 8 with more than three candidates,
draw once and with probability 0.6 pick uniformly from the complex
suffix (dropping the first two candidates), otherwise pick uniformly
from the whole candidate list; earlier positions pick uniformly with a
single draw. -/
def selectComponentType (f : ℕ → ℚ) (phaseNumber : ℤ)
    (existing : List PhaseComponent) (n : ℕ) : ComponentTypeSpec × ℕ :=
  let filtered := filteredTypesFor phaseNumber existing
  if 8 ≤ phaseNumber ∧ 3 < filtered.length then
    let u0 := f n
    if u0 < 6 / 10 then (pickAt (filtered.drop 2) (f (n + 1)), n + 2)
    else (pickAt filtered (f (n + 1)), n + 2)
  else
    (pickAt filtered (f n), n + 1)

/-- Size selection for a chosen type (the three branches of
generatePhaseComponent), before the final safety clamp. -/
noncomputable def selectComponentSize (f : ℕ → ℚ) (phaseNumber : ℤ)
    (ct : ComponentTypeSpec) (existing : List PhaseComponent)
    (remainingCards : ℤ) (n : ℕ) : ℤ × ℕ :=
  if ct.type = PhaseType.set then
    let maxSetSize0 :=
      if phaseNumber ≤ 3 then
        let m := min 3 (min ct.maxSize remainingCards)
        if existing ≠ [] ∨ remainingCards < 8 then min 3 m else m
      else if phaseNumber ≤ 6 then min 4 (min ct.maxSize remainingCards)
      else min ct.maxSize remainingCards
    let maxSetSize :=
      if maxSetSize0 < ct.minSize then min ct.minSize remainingCards
      else maxSetSize0
    getWeightedRandom f ct.minSize maxSetSize phaseNumber n
  else if ct.type = PhaseType.run then
    let maxRunSize :=
      if phaseNumber ≤ 3 then
        let m := min 5 (min ct.maxSize remainingCards)
        if existing ≠ [] ∨ remainingCards < 8 then min 4 m else m
      else if phaseNumber ≤ 6 then min 7 (min ct.maxSize remainingCards)
      else min ct.maxSize remainingCards
    let minRunSize := min ct.minSize remainingCards
    if maxRunSize < minRunSize then (min minRunSize remainingCards, n)
    else getWeightedRandom f minRunSize maxRunSize phaseNumber n
  else
    let maxSize :=
      if phaseNumber ≤ 6 then min (min ct.maxSize remainingCards) 7
      else min ct.maxSize remainingCards
    let minSize := min ct.minSize remainingCards
    if maxSize < minSize then (min minSize remainingCards, n)
    else getWeightedRandom f minSize maxSize phaseNumber n

/-- Count selection (after the final size clamp). -/
noncomputable def selectComponentCount (f : ℕ → ℚ) (phaseNumber : ℤ)
    (ct : ComponentTypeSpec) (size remainingCards : ℤ) (n : ℕ) : ℤ × ℕ :=
  let maxCount := max 1 (remainingCards / size)
  if ct.type = PhaseType.set ∧ 4 ≤ size then (1, n)
  else if phaseNumber ≤ 3 then
    if size ≤ 3 ∧ size * 2 ≤ remainingCards then
      (if f n < 6 / 10 then 2 else 1, n + 1)
    else (1, n)
  else getWeightedRandom f 1 (min 2 maxCount) phaseNumber n

/-- generatePhaseComponent: remaining budget, type restriction and
selection, size selection with the final safety clamp, count selection,
and the rendered description. -/
noncomputable def generatePhaseComponent (f : ℕ → ℚ) (phaseNumber : ℤ)
    (existing : List PhaseComponent) (n : ℕ) : PhaseComponent × ℕ :=
  let remainingCards := max 2 (9 - sumCards existing)
  let tn := selectComponentType f phaseNumber existing n
  let ct := tn.1
  let sn := selectComponentSize f phaseNumber ct existing remainingCards tn.2
  let size := max ct.minSize (min sn.1 (min remainingCards ct.maxSize))
  let cn := selectComponentCount f phaseNumber ct size remainingCards sn.2
  (⟨ct.type, cn.1, size, ct.describe cn.1 size⟩, cn.2)

/-! ## The single phase assembler (generateSinglePhase) -/

/-- How many components to attempt (the phase-position-dependent draw at
the top of generateSinglePhase). -/
def selectComponentCountTarget (f : ℕ → ℚ) (phaseNumber : ℤ) (n : ℕ) :
    ℤ × ℕ :=
  let u := f n
  if phaseNumber ≤ 3 then
    (if phaseNumber = 1 then
      (if u < 3 / 10 then 1 else 2)
     else
      (if u < 4 / 10 then 1 else if u < 8 / 10 then 2 else 1), n + 1)
  else if phaseNumber ≤ 6 then
    (if u < 3 / 10 then 1 else 2, n + 1)
  else
    (if u < 6 / 10 then 1 else if u < 9 / 10 then 2 else 3, n + 1)

/-- The canonical fallback component: 1 run of 6. -/
def fallbackComponent : PhaseComponent :=
  ⟨PhaseType.run, 1, 6, "1 run of 6"⟩

/-- The component-accumulation loop of generateSinglePhase: up to 20
attempts (the for-loop update increments attempts every iteration),
adding a component only when the running card count stays ≤ 9 (shrinking
a too-large first component instead of discarding it), and stopping
early once at least 6 cards and one component are present.  `fuel` is
the number of attempts left, `i` the number of accepted components. -/
noncomputable def buildComponents (f : ℕ → ℚ) (phaseNumber componentCount : ℤ) :
    ℕ → ℤ → ℤ → List PhaseComponent → ℕ → List PhaseComponent × ℤ × ℕ
  | 0, _, totalCards, comps, n => (comps, totalCards, n)
  | fuel + 1, i, totalCards, comps, n =>
    if i < componentCount then
      let cn := generatePhaseComponent f phaseNumber comps n
      let component := cn.1
      let n1 := cn.2
      let newTotal := totalCards + component.count * component.size
      if newTotal ≤ 9 then
        let comps1 := comps ++ [component]
        if 6 ≤ newTotal then (comps1, newTotal, n1)
        else buildComponents f phaseNumber componentCount fuel (i + 1) newTotal comps1 n1
      else if comps.isEmpty then
        let adjSize := min component.size 9
        let adj : PhaseComponent :=
          ⟨component.type, component.count, adjSize,
            describeFor component.type component.count adjSize component.description⟩
        let t := component.count * adjSize
        if 6 ≤ t then ([adj], t, n1)
        else buildComponents f phaseNumber componentCount fuel (i + 1) t [adj] n1
      else
        if 6 ≤ totalCards ∧ ¬ comps.isEmpty then (comps, totalCards, n1)
        else buildComponents f phaseNumber componentCount fuel i totalCards comps n1
    else (comps, totalCards, n)

/-- The index the adjustment loop expands: the first component with
count×size < 7, falling back to index 0 (components.find(...) ||
components[0]). -/
def expandableIdx (comps : List PhaseComponent) : ℕ :=
  let idx := comps.findIdx (fun c => c.count * c.size < 7)
  if idx < comps.length then idx else 0

/-- Default component for total getD indexing (index is always in range
at reachable states). -/
def defaultComponent : PhaseComponent := fallbackComponent

/-- One write of the adjustment loop mutating `comps[idx]` in place. -/
def setComponentSize (comps : List PhaseComponent) (idx : ℕ) (newSize : ℤ) :
    List PhaseComponent :=
  let c := comps.getD idx defaultComponent
  comps.set idx ⟨c.type, c.count, newSize,
    describeFor c.type c.count newSize c.description⟩

/-- The recovery adjustment loop of generateSinglePhase: while fewer
than 6 cards, expand the most easily expandable component, or replace
everything by the canonical fallback when no expansion is possible; at
most 10 iterations. -/
def adjustComponents : ℕ → List PhaseComponent → ℤ → List PhaseComponent × ℤ
  | 0, comps, totalCards => (comps, totalCards)
  | fuel + 1, comps, totalCards =>
    if totalCards < 6 ∧ ¬ comps.isEmpty then
      let idx := expandableIdx comps
      let c := comps.getD idx defaultComponent
      let maxPossibleSize := min 9 (9 - (totalCards - c.count * c.size))
      if c.size < maxPossibleSize then
        let oldSize := c.count * c.size
        let newSize :=
          if c.type = PhaseType.set then min 4 (c.size + 1)
          else min maxPossibleSize
            (c.size + ⌈((6 - totalCards : ℤ) : ℚ) / ((c.count : ℤ) : ℚ)⌉)
        adjustComponents fuel (setComponentSize comps idx newSize)
          (totalCards - oldSize + c.count * newSize)
      else ([fallbackComponent], 6)
    else (comps, totalCards)

/-- Recovery: no components at all, or fewer than 6 cards, is repaired
by expansion and, failing that, by the canonical fallback. -/
def recoverComponents (comps : List PhaseComponent) (totalCards : ℤ) :
    List PhaseComponent × ℤ :=
  if comps.isEmpty then ([fallbackComponent], 6)
  else if totalCards < 6 then
    let ct := adjustComponents 10 comps totalCards
    if ct.2 < 6 then ([fallbackComponent], 6) else ct
  else (comps, totalCards)

/-- Canonical component order: type priority, then count descending,
then size descending. -/
def typeOrder : PhaseType → ℤ
  | PhaseType.set => 1
  | PhaseType.run => 2
  | PhaseType.color => 3
  | PhaseType.evenOdd => 4
  | PhaseType.colorRun => 5
  | PhaseType.colorEvenOdd => 6

/-- The comparator of components.sort as a total boolean order. -/
def componentLe (a b : PhaseComponent) : Bool :=
  if typeOrder a.type ≠ typeOrder b.type then typeOrder a.type ≤ typeOrder b.type
  else if a.count ≠ b.count then b.count ≤ a.count
  else b.size ≤ a.size

/-- Join the component descriptions with " + ". -/
def joinDescriptions (comps : List PhaseComponent) : String :=
  String.intercalate " + " (comps.map (fun c => c.description))

/-- generateSinglePhase: pick a component-count target, run the
accumulation loop, recover if needed, canonicalize the order, join the
descriptions, score the difficulty. -/
noncomputable def generateSinglePhase (f : ℕ → ℚ) (phaseNumber : ℤ) (n : ℕ) :
    Phase × ℕ :=
  let ccn := selectComponentCountTarget f phaseNumber n
  let built := buildComponents f phaseNumber ccn.1 20 0 0 [] ccn.2
  let rec1 := recoverComponents built.1 built.2.1
  let sortedComps := rec1.1.mergeSort componentLe
  let description := joinDescriptions sortedComps
  let difficulty := calculateDifficulty sortedComps
  (⟨phaseNumber, description, difficulty, rec1.2, none⟩, built.2.2)

/-! ## The duplicate guard -/

/-- arePhasesIdentical: same description and same card count. -/
def arePhasesIdentical (p1 p2 : Phase) : Bool :=
  p1.description == p2.description && p1.cardCount == p2.cardCount

/-- isDuplicatePhase: identical to some already-accepted phase. -/
def isDuplicatePhase (p : Phase) (existing : List Phase) : Bool :=
  existing.any (fun q => arePhasesIdentical p q)

/-- One step of the variation ladder: bump the card count (and the first
number of the description) up while below 9, else down while above 6,
else substitute the synthesized fallback derived from the position. -/
def variationStep (originalPhase : Phase) (p : Phase) : Phase :=
  if p.cardCount < 9 then
    ⟨p.id, replaceFirstNumber p.description (fun k => k + 1), p.difficulty,
      p.cardCount + 1, p.rerollId⟩
  else if 6 < p.cardCount then
    ⟨p.id, replaceFirstNumber p.description (fun k => max 2 (k - 1)), p.difficulty,
      p.cardCount - 1, p.rerollId⟩
  else
    ⟨originalPhase.id, "1 set of " ++ toString (6 + Int.tmod originalPhase.id 4),
      min 10 (originalPhase.difficulty + 1), 6 + Int.tmod originalPhase.id 4, none⟩

/-- The bounded while-loop of createVariationOfPhase. -/
def variationLoop (originalPhase : Phase) (existing : List Phase) :
    ℕ → Phase → Phase
  | 0, p => p
  | fuel + 1, p =>
    if isDuplicatePhase p existing then
      variationLoop originalPhase existing fuel (variationStep originalPhase p)
    else p

/-- createVariationOfPhase: up to 5 variation attempts. -/
def createVariationOfPhase (originalPhase : Phase) (existing : List Phase) :
    Phase :=
  variationLoop originalPhase existing 5 originalPhase

/-! ## The phase set assembler (generatePhaseSet) -/

/-- Difficulty of the most recently accepted phase (phases[phases.length-1]). -/
def lastDifficulty (phases : List Phase) : ℤ :=
  ((phases.getLast?).map Phase.difficulty).getD 0

/-- The 20-attempt search for a position: skip duplicates, break on the
first reasonable candidate (first phase, or difficulty not more than one
below the last accepted), otherwise track the best non-duplicate seen. -/
noncomputable def attemptLoop (f : ℕ → ℚ) (i : ℤ) (phases : List Phase) :
    ℕ → Option Phase → ℕ → Option Phase × ℕ
  | 0, best, n => (best, n)
  | fuel + 1, best, n =>
    let pn := generateSinglePhase f i n
    let phase := pn.1
    let n1 := pn.2
    if isDuplicatePhase phase phases then attemptLoop f i phases fuel best n1
    else if phases.isEmpty ∨ lastDifficulty phases - 1 ≤ phase.difficulty then
      (some phase, n1)
    else
      let best1 :=
        match best with
        | none => some phase
        | some b => if b.difficulty < phase.difficulty then some phase else some b
      attemptLoop f i phases fuel best1 n1

/-- The up-to-10 extra regenerations used to escape a collision. -/
noncomputable def dupLoop (f : ℕ → ℚ) (i : ℤ) (phases : List Phase) :
    ℕ → Phase → ℕ → Phase × ℕ
  | 0, p, n => (p, n)
  | fuel + 1, p, n =>
    if isDuplicatePhase p phases then
      let pn := generateSinglePhase f i n
      dupLoop f i phases fuel pn.1 pn.2
    else (p, n)

/-- Generation of the phase for one position, against the accepted list. -/
noncomputable def generateForPosition (f : ℕ → ℚ) (i : ℤ) (phases : List Phase)
    (n : ℕ) : Phase × ℕ :=
  let bn := attemptLoop f i phases 20 none n
  let fn1 :=
    match bn.1 with
    | some p => (p, bn.2)
    | none => generateSinglePhase f i bn.2
  let dn := dupLoop f i phases 10 fn1.1 fn1.2
  let finalPhase :=
    if isDuplicatePhase dn.1 phases then createVariationOfPhase dn.1 phases
    else dn.1
  (finalPhase, dn.2)

/-- The position loop: for i = 1..10 accept one phase each. -/
noncomputable def positionLoop (f : ℕ → ℚ) :
    List ℤ → List Phase → ℕ → List Phase × ℕ
  | [], phases, n => (phases, n)
  | i :: rest, phases, n =>
    let pn := generateForPosition f i phases n
    positionLoop f rest (phases ++ [pn.1]) pn.2

/-- The ten raw accepted phases, in acceptance order (ids 1..10). -/
noncomputable def generatePhasesRaw (f : ℕ → ℚ) (n : ℕ) : List Phase × ℕ :=
  positionLoop f [1, 2, 3, 4, 5, 6, 7, 8, 9, 10] [] n

/-- The final sort comparator: difficulty ascending, ties by original id. -/
def phaseLe (a b : Phase) : Bool :=
  if a.difficulty ≠ b.difficulty then a.difficulty ≤ b.difficulty
  else a.id ≤ b.id

/-- Re-assign ids 1..10 after the sort (the forEach reindexing). -/
def reassignIds : List Phase → ℕ → List Phase
  | [], _ => []
  | p :: ps, k =>
    ⟨(k : ℤ) + 1, p.description, p.difficulty, p.cardCount, p.rerollId⟩
      :: reassignIds ps (k + 1)

/-- The ambient state: the current random stream with its position, and
the wall clock read by new Date(). -/
structure GState where
  fn : ℕ → ℚ
  pos : ℕ
  now : ℤ

/-- generatePhaseSet: generate ten phases from the ambient stream, sort,
reindex, and draw a fresh set id. -/
noncomputable def generatePhaseSet (s : GState) : PhaseSet × GState :=
  let rawn := generatePhasesRaw s.fn s.pos
  let sorted := rawn.1.mergeSort phaseLe
  let phases := reassignIds sorted 0
  let idn := generateUniqueId s.fn rawn.2
  (⟨idn.1, "Phase Set " ++ idn.1, phases, s.now, "1.0.0", none⟩,
    ⟨s.fn, idn.2, s.now⟩)

/-! ## The reroll engine (rerollSinglePhase) -/

/-- A deterministic phase for one position from a reroll token: install
the seeded stream, generate, tag with the position and the token.  (The
ambient stream is untouched; the source's try/finally restores
Math.random on every path.) -/
noncomputable def rerollFromToken (token : String) (phasePosition : ℤ) : Phase :=
  let pn := generateSinglePhase (seedStream token) phasePosition 0
  ⟨phasePosition, pn.1.description, pn.1.difficulty, pn.1.cardCount, some token⟩

/-- The 20-attempt loop of a fresh (tokenless) reroll: draw a candidate
token from the ambient stream, generate deterministically from it, and
accept the first non-duplicate. -/
noncomputable def rerollAttemptLoop (f : ℕ → ℚ) (phasePosition : ℤ)
    (existing : List Phase) : ℕ → ℕ → Option Phase × ℕ
  | 0, n => (none, n)
  | fuel + 1, n =>
    let tn := generateRerollId f n
    let candidate := rerollFromToken tn.1 phasePosition
    if isDuplicatePhase candidate existing then
      rerollAttemptLoop f phasePosition existing fuel tn.2
    else (some candidate, tn.2)

/-- The tokenless path of rerollSinglePhase: up to 20 fresh tokens with
duplicate checking, then a final token whose phase is pushed through the
variation ladder. -/
noncomputable def rerollFresh (f : ℕ → ℚ) (phasePosition : ℤ)
    (existing : List Phase) (n : ℕ) : Phase × ℕ :=
  let an := rerollAttemptLoop f phasePosition existing 20 n
  match an.1 with
  | some p => (p, an.2)
  | none =>
    let tn := generateRerollId f an.2
    let fp := generateSinglePhase (seedStream tn.1) phasePosition 0
    let fp2 : Phase := ⟨phasePosition, fp.1.description, fp.1.difficulty,
      fp.1.cardCount, fp.1.rerollId⟩
    let np := createVariationOfPhase fp2 existing
    (⟨phasePosition, np.description, np.difficulty, np.cardCount, some tn.1⟩, tn.2)

/-- rerollSinglePhase: with a provided truthy token, deterministic
generation from that token (the ambient stream untouched); a missing or
empty (falsy) token takes the fresh-reroll path. -/
noncomputable def rerollSinglePhase (f : ℕ → ℚ) (phasePosition : ℤ)
    (existing : List Phase) (providedRerollId : Option String) (n : ℕ) :
    Phase × ℕ :=
  match providedRerollId with
  | some token =>
    if token = "" then rerollFresh f phasePosition existing n
    else (rerollFromToken token phasePosition, n)
  | none => rerollFresh f phasePosition existing n

/-! ## Deterministic generation from a seed (generatePhaseSetFromId) -/

/-- Apply the recorded rerolls: for each (position, token) pair, if a
phase with that id is present, replace it by the deterministic reroll
against its nine siblings. -/
noncomputable def applyRerolls (f : ℕ → ℚ) :
    List (ℤ × String) → List Phase → ℕ → List Phase × ℕ
  | [], phases, n => (phases, n)
  | (pid, tok) :: rest, phases, n =>
    let idx := phases.findIdx (fun p => p.id == pid)
    if idx < phases.length then
      let others := phases.filter (fun p => ¬ p.id == pid)
      let rn := rerollSinglePhase f pid others (some tok) n
      applyRerolls f rest (phases.set idx rn.1) rn.2
    else applyRerolls f rest phases n

/-- generatePhaseSetFromId: substitute the seeded stream for the ambient
one, generate a full set, apply the recorded rerolls, override id and
name, and restore the ambient stream (the try/finally around the body). -/
noncomputable def generatePhaseSetFromId (id : String)
    (rerolls : List (ℤ × String)) (s : GState) : PhaseSet × GState :=
  let saved : GState := s
  let inner : GState := ⟨seedStream id, 0, s.now⟩
  let psn := generatePhaseSet inner
  let ps := psn.1
  let s2 := psn.2
  let phn := applyRerolls s2.fn rerolls ps.phases s2.pos
  (⟨id, "Shared Phase Set", phn.1, ps.createdAt, ps.version, some rerolls⟩,
    saved)

/-! ## Helper lemmas -/

/-- A stream of legitimate Math.random draws: every value in [0,1). -/
def validStream (f : ℕ → ℚ) : Prop :=
  ∀ k, 0 ≤ f k ∧ f k < 1

/-- The phases of a seeded set as a function of the substituted stream
alone (generatePhaseSetFromId computes exactly this). -/
noncomputable def phasesFromStream (g : ℕ → ℚ) (rerolls : List (ℤ × String)) :
    List Phase :=
  let rawn := generatePhasesRaw g 0
  let sorted := rawn.1.mergeSort phaseLe
  let phases := reassignIds sorted 0
  (applyRerolls g rerolls phases (rawn.2 + 2)).1

theorem fromId_phases_eq (id : String) (rerolls : List (ℤ × String))
    (s : GState) :
    (generatePhaseSetFromId id rerolls s).1.phases
      = phasesFromStream (seedStream id) rerolls := rfl

theorem rerollAttemptLoop_advances (f : ℕ → ℚ) (pos : ℤ) (ex : List Phase) :
    ∀ fuel n, ∃ k, (rerollAttemptLoop f pos ex fuel n).2 = n + k := by
  intro fuel
  induction fuel with
  | zero => intro n; exact ⟨0, rfl⟩
  | succ m ih =>
    intro n
    simp only [rerollAttemptLoop, generateRerollId]
    split
    · obtain ⟨k, hk⟩ := ih (n + 1)
      exact ⟨1 + k, by rw [hk]; omega⟩
    · exact ⟨1, rfl⟩

/-! ## C1: deterministic reproducibility from the seed -/

/-- C1: For every seed string id and fixed rerolls mapping, two calls of
generatePhaseSetFromId(id, rerolls) in any two ambient states produce
identical phases arrays (field-for-field, including position ids and
reroll tokens); the produced set is reproducible except for id, name and
createdAt, which are caller/context-supplied. -/
theorem C1_generatePhaseSetFromId_reproducible (id : String)
    (rerolls : List (ℤ × String)) (s1 s2 : GState) :
    (generatePhaseSetFromId id rerolls s1).1.phases
        = (generatePhaseSetFromId id rerolls s2).1.phases
      ∧ (generatePhaseSetFromId id rerolls s1).1.id = id
      ∧ (generatePhaseSetFromId id rerolls s1).1.name = "Shared Phase Set"
      ∧ (generatePhaseSetFromId id rerolls s1).1.createdAt = s1.now :=
  ⟨rfl, rfl, rfl, rfl⟩

/-! ## C10: the seed enters only through its character-code sum -/

/-- C10: Seeded generation depends on the seed string only through the
sum of its character codes: seeds with equal sums produce identical
phases arrays under the same rerolls, so distinct seeds can collide. -/
theorem C10_seed_only_through_charCodeSum (id1 id2 : String)
    (h : charCodeSum id1 = charCodeSum id2) (rerolls : List (ℤ × String))
    (s1 s2 : GState) :
    (generatePhaseSetFromId id1 rerolls s1).1.phases
      = (generatePhaseSetFromId id2 rerolls s2).1.phases := by
  rw [fromId_phases_eq, fromId_phases_eq]
  unfold seedStream
  rw [h]

/-- Witness for C10: "ab" and "ba" are distinct seeds with the same
character-code sum, hence identical phase arrays. -/
theorem C10_witness :
    charCodeSum "ab" = charCodeSum "ba" ∧ "ab" ≠ "ba"
      ∧ (generatePhaseSetFromId "ab" [] ⟨fun _ => 0, 0, 0⟩).1.phases
          = (generatePhaseSetFromId "ba" [] ⟨fun _ => 0, 0, 0⟩).1.phases :=
  ⟨by decide, by decide,
    C10_seed_only_through_charCodeSum "ab" "ba" (by decide) [] _ _⟩

/-! ## C8: restoration of the ambient randomness source -/

/-- C8: After a deterministic generation call the ambient source is
exactly as before: generatePhaseSetFromId returns the ambient state
unchanged on every path; a token reroll leaves the ambient stream
position untouched; a fresh (tokenless) reroll keeps the ambient stream
and advances its position only by its own legitimate ambient draws. -/
theorem C8_ambient_source_restored :
    (∀ (id : String) (rerolls : List (ℤ × String)) (s : GState),
        (generatePhaseSetFromId id rerolls s).2 = s)
      ∧ (∀ (f : ℕ → ℚ) (pos : ℤ) (ex : List Phase) (t : String) (n : ℕ),
          t ≠ "" → (rerollSinglePhase f pos ex (some t) n).2 = n)
      ∧ (∀ (f : ℕ → ℚ) (pos : ℤ) (ex : List Phase) (n : ℕ),
          ∃ k, (rerollSinglePhase f pos ex none n).2 = n + k) := by
  refine ⟨fun id rerolls s => rfl, fun f pos ex t n ht => ?_, fun f pos ex n => ?_⟩
  · simp [rerollSinglePhase, ht]
  · show ∃ k, (rerollFresh f pos ex n).2 = n + k
    unfold rerollFresh
    obtain ⟨k, hk⟩ := rerollAttemptLoop_advances f pos ex 20 n
    rcases ha : (rerollAttemptLoop f pos ex 20 n).1 with _ | p
    · exact ⟨k + 1, by simp [ha, generateRerollId, hk, Nat.add_assoc]⟩
    · exact ⟨k, by simp [ha, hk]⟩

/-- Witness for C8 (token path at a concrete token and state). -/
theorem C8_witness :
    "abc123" ≠ ""
      ∧ (rerollSinglePhase (fun _ => 0) 5 [] (some "abc123") 7).2 = 7 :=
  ⟨by decide, C8_ambient_source_restored.2.1 (fun _ => 0) 5 [] "abc123" 7 (by decide)⟩

/-! ## C5: the weighted sampler -/

theorem weightOf_pos (phase : ℤ) : 0 < weightOf phase :=
  lt_of_lt_of_le (by norm_num) (le_max_left _ _)

theorem powDraw_bounds {u w : ℚ} (h0 : 0 ≤ u) (h1 : u < 1) (hw : 0 < w) :
    0 ≤ powDraw u w ∧ powDraw u w < 1 :=
  ⟨Real.rpow_nonneg (by exact_mod_cast h0) _,
    Real.rpow_lt_one (by exact_mod_cast h0) (by exact_mod_cast h1)
      (by exact_mod_cast hw)⟩

/-- Range bounds for the weighted sampler, assuming only that the one
draw it consumes is a legitimate Math.random value. -/
theorem gwr_bounds (f : ℕ → ℚ) (lo hi phase : ℤ) (n : ℕ)
    (h0 : 0 ≤ f n) (h1 : f n < 1) (h : lo ≤ hi) :
    lo ≤ (getWeightedRandom f lo hi phase n).1
      ∧ (getWeightedRandom f lo hi phase n).1 ≤ hi := by
  unfold getWeightedRandom
  rw [if_neg (not_lt.mpr h)]
  by_cases he : lo = hi
  · rw [if_pos he]; exact ⟨le_refl _, le_of_eq he⟩
  · rw [if_neg he]
    obtain ⟨hp0, hp1⟩ := powDraw_bounds h0 h1 (weightOf_pos phase)
    have hrange : (0 : ℤ) < hi - lo + 1 := by omega
    have hrangeR : (0 : ℝ) < ((hi - lo + 1 : ℤ) : ℝ) := by exact_mod_cast hrange
    have hfl0 : 0 ≤ ⌊powDraw (f n) (weightOf phase) * ((hi - lo + 1 : ℤ) : ℝ)⌋ :=
      Int.floor_nonneg.mpr (mul_nonneg hp0 hrangeR.le)
    have hflhi : ⌊powDraw (f n) (weightOf phase) * ((hi - lo + 1 : ℤ) : ℝ)⌋
        < hi - lo + 1 := by
      apply Int.floor_lt.mpr
      calc powDraw (f n) (weightOf phase) * ((hi - lo + 1 : ℤ) : ℝ)
          < 1 * ((hi - lo + 1 : ℤ) : ℝ) := mul_lt_mul_of_pos_right hp1 hrangeR
        _ = ((hi - lo + 1 : ℤ) : ℝ) := one_mul _
    exact ⟨by omega, by omega⟩

/-- C5: For all integers min ≤ max and any phase position, the weighted
sampler returns min when min = max (drawing nothing), and otherwise
returns min + floor(u^w × (max − min + 1)) for one ambient draw u with
w = max(0.3, 1 − 0.1×(position−1)); the returned value is always an
integer in [min, max]. -/
theorem C5_weighted_sampler (f : ℕ → ℚ) (lo hi phase : ℤ) (n : ℕ)
    (h : lo ≤ hi) (h0 : 0 ≤ f n) (h1 : f n < 1) :
    (lo = hi → getWeightedRandom f lo hi phase n = (lo, n))
      ∧ (lo < hi → getWeightedRandom f lo hi phase n
          = (lo + ⌊powDraw (f n) (weightOf phase) * ((hi - lo + 1 : ℤ) : ℝ)⌋,
             n + 1))
      ∧ lo ≤ (getWeightedRandom f lo hi phase n).1
      ∧ (getWeightedRandom f lo hi phase n).1 ≤ hi := by
  refine ⟨fun he => ?_, fun hlt => ?_, gwr_bounds f lo hi phase n h0 h1 h⟩
  · unfold getWeightedRandom
    rw [if_neg (not_lt.mpr h), if_pos he]
  · unfold getWeightedRandom
    rw [if_neg (not_lt.mpr h), if_neg (ne_of_lt hlt)]

/-- Witness for C5 at min = 3, max = 5, position 1, draw 0. -/
theorem C5_witness :
    (3 : ℤ) ≤ 5 ∧ (0 : ℚ) ≤ 0 ∧ (0 : ℚ) < 1
      ∧ (3 ≤ (getWeightedRandom (fun _ => 0) 3 5 1 0).1
          ∧ (getWeightedRandom (fun _ => 0) 3 5 1 0).1 ≤ 5) :=
  ⟨by norm_num, le_refl _, by norm_num,
    (C5_weighted_sampler (fun _ => 0) 3 5 1 0 (by norm_num) (le_refl _)
      (by norm_num)).2.2⟩

/-! ## C6: the difficulty scorer equals the spec formula -/

theorem findSpec_set :
    findSpec PhaseType.set = some ⟨PhaseType.set, 2, 4, 2, describeSet⟩ := rfl

theorem findSpec_run :
    findSpec PhaseType.run = some ⟨PhaseType.run, 3, 8, 1, describeRun⟩ := rfl

theorem findSpec_color :
    findSpec PhaseType.color = some ⟨PhaseType.color, 4, 8, 3, describeColor⟩ := rfl

theorem findSpec_evenOdd :
    findSpec PhaseType.evenOdd
      = some ⟨PhaseType.evenOdd, 4, 8, 3, describeEvenOdd⟩ := rfl

theorem findSpec_colorRun :
    findSpec PhaseType.colorRun
      = some ⟨PhaseType.colorRun, 3, 6, 4, describeColorRun⟩ := rfl

theorem findSpec_colorEvenOdd :
    findSpec PhaseType.colorEvenOdd
      = some ⟨PhaseType.colorEvenOdd, 3, 6, 5, describeColorEvenOdd⟩ := rfl

theorem calcFold_eq (acc : ℝ × ℤ) (comp : PhaseComponent) :
    calcFold acc comp
      = (acc.1 + spec_componentComplexity comp,
         acc.2 + comp.count * comp.size) := by
  rcases comp with ⟨t, c, sz, d⟩
  cases t <;>
    simp [calcFold, findSpec_set, findSpec_run, findSpec_color, findSpec_evenOdd,
      findSpec_colorRun, findSpec_colorEvenOdd, componentComplexity,
      spec_componentComplexity, specBaseDifficulty, specMinSize]

theorem foldl_calcFold (comps : List PhaseComponent) :
    ∀ acc : ℝ × ℤ,
      comps.foldl calcFold acc
        = (acc.1 + (comps.map spec_componentComplexity).sum,
           acc.2 + (comps.map (fun c => c.count * c.size)).sum) := by
  induction comps with
  | nil => intro acc; simp
  | cons c cs ih =>
    intro acc
    rw [List.foldl_cons, calcFold_eq, ih]
    simp [add_assoc]

/-- The final clamping and rounding keeps the score in [1, 10]. -/
theorem roundClamp_bounds (x : ℝ) :
    1 ≤ round (min (10 : ℝ) (max (1 : ℝ) x))
      ∧ round (min (10 : ℝ) (max (1 : ℝ) x)) ≤ 10 := by
  have h1 : (1 : ℝ) ≤ min (10 : ℝ) (max (1 : ℝ) x) :=
    le_min (by norm_num) (le_max_left _ _)
  have h2 : min (10 : ℝ) (max (1 : ℝ) x) ≤ 10 := min_le_left _ _
  rw [round_eq]
  constructor
  · exact Int.le_floor.mpr (by push_cast; linarith)
  · have : ⌊min (10 : ℝ) (max (1 : ℝ) x) + 1 / 2⌋ < 11 :=
      Int.floor_lt.mpr (by push_cast; linarith)
    omega

theorem calculateDifficulty_bounds (comps : List PhaseComponent) :
    1 ≤ calculateDifficulty comps ∧ calculateDifficulty comps ≤ 10 := by
  unfold calculateDifficulty
  exact roundClamp_bounds _

/-- C6: calculateDifficulty is a pure deterministic function of the
component list, equal to the reference formula of spec §4.6, and its
result is an integer in [1, 10]. -/
theorem C6_difficulty_formula (components : List PhaseComponent) :
    calculateDifficulty components = spec_calculateDifficulty components
      ∧ 1 ≤ calculateDifficulty components
      ∧ calculateDifficulty components ≤ 10 := by
  refine ⟨?_, calculateDifficulty_bounds components⟩
  unfold calculateDifficulty spec_calculateDifficulty
  rw [foldl_calcFold]
  simp

/-! ## C2: the duplicate-resolution ladder can return a duplicate -/

/-- A phase reachable at position 5 (every attempt generated
"1 run of 6") together with the four previously accepted phases, each of
which arose from the same generation followed by successively deeper
variation ladders. -/
def cexOriginal : Phase := ⟨5, "1 run of 6", 3, 6, none⟩

def cexAccepted : List Phase :=
  [⟨1, "1 run of 6", 3, 6, none⟩, ⟨2, "2 run of 6", 3, 7, none⟩,
   ⟨3, "3 run of 6", 3, 8, none⟩, ⟨4, "4 run of 6", 3, 9, none⟩]

/-- C2 (failing input): with the four accepted phases above, all five
variation candidates of "1 run of 6" (6 cards) collide — the bump
sequence oscillates between cardCount 8 and 9 — and the ladder returns
"4 run of 6" (9 cards), a duplicate of an accepted phase; the
synthesized-fallback branch of the ladder is unreachable for integer
card counts. -/
theorem C2_variation_ladder_returns_duplicate :
    isDuplicatePhase (createVariationOfPhase cexOriginal cexAccepted)
        cexAccepted = true
      ∧ createVariationOfPhase cexOriginal cexAccepted
          = ⟨5, "4 run of 6", 3, 9, none⟩ := by
  constructor <;> decide

/-! ## C7: size bounds of a generated component -/

/-- Catalog minimum size of a type. -/
def catalogMinSize (t : PhaseType) : ℤ :=
  match findSpec t with
  | none => 0
  | some ct => ct.minSize

/-- Catalog maximum size of a type. -/
def catalogMaxSize (t : PhaseType) : ℤ :=
  match findSpec t with
  | none => 0
  | some ct => ct.maxSize

theorem catalog_entry_facts (ct : ComponentTypeSpec)
    (h : ct ∈ PHASE_COMPONENTS) :
    catalogMinSize ct.type = ct.minSize ∧ catalogMaxSize ct.type = ct.maxSize
      ∧ 2 ≤ ct.minSize ∧ ct.minSize ≤ ct.maxSize ∧ ct.maxSize ≤ 8 := by
  simp only [PHASE_COMPONENTS, List.mem_cons, List.not_mem_nil, or_false] at h
  rcases h with rfl | rfl | rfl | rfl | rfl | rfl <;>
    exact ⟨rfl, rfl, by norm_num, by norm_num, by norm_num⟩

theorem getD_mem_of_lt {α : Type} {l : List α} {i : ℕ} (h : i < l.length)
    (d : α) : l.getD i d ∈ l := by
  rw [List.getD_eq_getElem?_getD, List.getElem?_eq_getElem h]
  exact List.getElem_mem h

theorem pickAt_mem_catalog {l : List ComponentTypeSpec}
    (hs : ∀ x ∈ l, x ∈ PHASE_COMPONENTS) (u : ℚ) :
    pickAt l u ∈ PHASE_COMPONENTS := by
  unfold pickAt
  by_cases h : (⌊u * (l.length : ℚ)⌋).toNat < l.length
  · exact hs _ (getD_mem_of_lt h _)
  · rw [List.getD_eq_default _ _ (le_of_not_lt h)]
    simp [defaultSpec, PHASE_COMPONENTS]

theorem availableTypes_subset (pn : ℤ) :
    ∀ y ∈ availableTypesFor pn, y ∈ PHASE_COMPONENTS := by
  intro y hy
  unfold availableTypesFor at hy
  split at hy
  · exact List.take_subset _ _ hy
  · split at hy
    · exact List.take_subset _ _ hy
    · split at hy
      · exact List.take_subset _ _ hy
      · exact hy

theorem filteredTypes_subset (pn : ℤ) (ex : List PhaseComponent) :
    ∀ x ∈ filteredTypesFor pn ex, x ∈ PHASE_COMPONENTS := by
  intro x hx
  have hav := availableTypes_subset pn
  simp only [filteredTypesFor] at hx
  split_ifs at hx <;>
    first
      | exact hav x hx
      | exact List.take_subset _ _ hx
      | exact hav x (List.mem_of_mem_filter hx)

theorem selectComponentType_mem (f : ℕ → ℚ) (pn : ℤ)
    (ex : List PhaseComponent) (n : ℕ) :
    (selectComponentType f pn ex n).1 ∈ PHASE_COMPONENTS := by
  simp only [selectComponentType]
  split_ifs <;>
    first
      | exact pickAt_mem_catalog
          (fun x hx => filteredTypes_subset pn ex x (List.drop_subset _ _ hx)) _
      | exact pickAt_mem_catalog (filteredTypes_subset pn ex) _

/-- C7 (amended): the returned component's size always lies in
[catalogMin, max(catalogMin, min(remainingCards, catalogMax))] for its
type, with remainingCards = max(2, 9 − Σ count×size over the committed
components); the final safety clamp takes the maximum with catalogMin
last, so when remainingCards < catalogMin the size exceeds the remaining
budget (the claimed interval [catalogMin, min(remainingCards,
catalogMax)] is then empty). -/
theorem C7_component_size_in_clamped_range (f : ℕ → ℚ) (pn : ℤ)
    (ex : List PhaseComponent) (n : ℕ) :
    catalogMinSize ((generatePhaseComponent f pn ex n).1).type
        ≤ ((generatePhaseComponent f pn ex n).1).size
      ∧ ((generatePhaseComponent f pn ex n).1).size
          ≤ max (catalogMinSize ((generatePhaseComponent f pn ex n).1).type)
              (min (max 2 (9 - sumCards ex))
                (catalogMaxSize ((generatePhaseComponent f pn ex n).1).type)) := by
  have hmem := selectComponentType_mem f pn ex n
  obtain ⟨hmin, hmax, h2, hmm, h8⟩ := catalog_entry_facts _ hmem
  show catalogMinSize (selectComponentType f pn ex n).1.type
        ≤ max (selectComponentType f pn ex n).1.minSize _
      ∧ max (selectComponentType f pn ex n).1.minSize _
          ≤ max (catalogMinSize (selectComponentType f pn ex n).1.type)
              (min _ (catalogMaxSize (selectComponentType f pn ex n).1.type))
  rw [hmin, hmax]
  exact ⟨le_max_left _ _, max_le_max (le_refl _) (min_le_right _ _)⟩

/-- Committed components for the C7 counterexample: one run of 7 cards,
leaving a remaining budget of max(2, 9−7) = 2. -/
def cexComponents : List PhaseComponent := [⟨PhaseType.run, 1, 7, "1 run of 7"⟩]

/-- C7 (counterexample): at position 6 with 7 cards committed, a draw of
0.5 selects the color type (catalogMin 4, catalogMax 8); the remaining
budget is 2, yet the returned size is 4 > min(2, 8) = 2, so the size is
not in the claimed interval [catalogMin, min(remainingCards,
catalogMax)]. -/
theorem C7_counterexample :
    ((generatePhaseComponent (fun _ => (1 / 2 : ℚ)) 6 cexComponents 0).1).type
        = PhaseType.color
      ∧ ((generatePhaseComponent (fun _ => (1 / 2 : ℚ)) 6 cexComponents 0).1).size = 4
      ∧ max 2 (9 - sumCards cexComponents) = 2
      ∧ catalogMinSize PhaseType.color = 4
      ∧ catalogMaxSize PhaseType.color = 8
      ∧ ¬ (((generatePhaseComponent (fun _ => (1 / 2 : ℚ)) 6 cexComponents 0).1).size
            ≤ min (max 2 (9 - sumCards cexComponents)) (catalogMaxSize PhaseType.color)) := by
  have hsum : sumCards cexComponents = 7 := by norm_num [sumCards, cexComponents]
  have hsel : (selectComponentType (fun _ => (1 / 2 : ℚ)) 6 cexComponents 0)
      = (⟨PhaseType.color, 4, 8, 3, describeColor⟩, 1) := by
    norm_num [selectComponentType, filteredTypesFor, availableTypesFor, pickAt,
      PHASE_COMPONENTS, cexComponents, List.isEmpty]
    rfl
  have hgpc : (generatePhaseComponent (fun _ => (1 / 2 : ℚ)) 6 cexComponents 0).1
      = ⟨PhaseType.color, 1, 4, describeColor 1 4⟩ := by
    simp only [generatePhaseComponent, hsel, hsum]
    norm_num [selectComponentSize, selectComponentCount, getWeightedRandom]
  rw [hgpc, hsum]
  refine ⟨rfl, rfl, by norm_num, rfl, rfl, by norm_num [catalogMaxSize, findSpec_color]⟩

/-! ## C4: cardinality, positions and ordering of a finished set -/

theorem generateSinglePhase_id (f : ℕ → ℚ) (i : ℤ) (n : ℕ) :
    (generateSinglePhase f i n).1.id = i := rfl

theorem variationStep_id (o p : Phase) (h : p.id = o.id) :
    (variationStep o p).id = o.id := by
  unfold variationStep
  split_ifs <;> simp [h]

theorem variationLoop_id (o : Phase) (ex : List Phase) :
    ∀ fuel p, p.id = o.id → (variationLoop o ex fuel p).id = o.id := by
  intro fuel
  induction fuel with
  | zero => exact fun p h => h
  | succ m ih =>
    intro p h
    unfold variationLoop
    split
    · exact ih _ (variationStep_id o p h)
    · exact h

theorem createVariationOfPhase_id (o : Phase) (ex : List Phase) :
    (createVariationOfPhase o ex).id = o.id :=
  variationLoop_id o ex 5 o rfl

theorem attemptLoop_id (f : ℕ → ℚ) (i : ℤ) (phases : List Phase) :
    ∀ fuel (best : Option Phase) n, (∀ b, best = some b → b.id = i) →
      ∀ p, (attemptLoop f i phases fuel best n).1 = some p → p.id = i := by
  intro fuel
  induction fuel with
  | zero => exact fun best n hb p hp => hb p hp
  | succ m ih =>
    intro best n hb p hp
    simp only [attemptLoop] at hp
    split at hp
    · exact ih best _ hb p hp
    · split at hp
      · have := Option.some.inj hp
        rw [← this]
        rfl
      · refine ih _ _ ?_ p hp
        intro b hb1
        rcases best with _ | b0
        · rw [← Option.some.inj hb1]; rfl
        · simp only at hb1
          split at hb1
          · rw [← Option.some.inj hb1]; rfl
          · rw [← Option.some.inj hb1]; exact hb b0 rfl

theorem dupLoop_id (f : ℕ → ℚ) (i : ℤ) (phases : List Phase) :
    ∀ fuel p n, p.id = i → (dupLoop f i phases fuel p n).1.id = i := by
  intro fuel
  induction fuel with
  | zero => exact fun p n h => h
  | succ m ih =>
    intro p n h
    unfold dupLoop
    split
    · exact ih _ _ rfl
    · exact h

theorem generateForPosition_id (f : ℕ → ℚ) (i : ℤ) (phases : List Phase)
    (n : ℕ) : (generateForPosition f i phases n).1.id = i := by
  have key : ∀ (q : Phase) (m : ℕ), q.id = i →
      (if isDuplicatePhase (dupLoop f i phases 10 q m).1 phases = true
        then createVariationOfPhase (dupLoop f i phases 10 q m).1 phases
        else (dupLoop f i phases 10 q m).1).id = i := by
    intro q m hq
    have hd := dupLoop_id f i phases 10 q m hq
    split
    · rw [createVariationOfPhase_id]; exact hd
    · exact hd
  unfold generateForPosition
  rcases h : (attemptLoop f i phases 20 none n).1 with _ | p
  · simp only [h]
    exact key _ _ rfl
  · simp only [h]
    exact key _ _ (attemptLoop_id f i phases 20 none n (fun b hb => by cases hb) p h)

theorem positionLoop_map_id (f : ℕ → ℚ) :
    ∀ (L : List ℤ) (acc : List Phase) (n : ℕ),
      (positionLoop f L acc n).1.map Phase.id = acc.map Phase.id ++ L := by
  intro L
  induction L with
  | nil => intro acc n; simp [positionLoop]
  | cons i rest ih =>
    intro acc n
    simp only [positionLoop]
    rw [ih]
    simp [generateForPosition_id]

theorem raw_map_id (f : ℕ → ℚ) (n : ℕ) :
    (generatePhasesRaw f n).1.map Phase.id
      = [1, 2, 3, 4, 5, 6, 7, 8, 9, 10] := by
  unfold generatePhasesRaw
  rw [positionLoop_map_id]
  rfl

theorem raw_length (f : ℕ → ℚ) (n : ℕ) :
    (generatePhasesRaw f n).1.length = 10 := by
  have h := congrArg List.length (raw_map_id f n)
  simpa using h

theorem phaseLe_iff (a b : Phase) :
    phaseLe a b = true
      ↔ a.difficulty < b.difficulty
        ∨ (a.difficulty = b.difficulty ∧ a.id ≤ b.id) := by
  unfold phaseLe
  split_ifs with h <;> simp <;> omega

theorem phaseLe_trans (a b c : Phase) (hab : phaseLe a b = true)
    (hbc : phaseLe b c = true) : phaseLe a c = true := by
  rw [phaseLe_iff] at hab hbc ⊢
  omega

theorem phaseLe_total (a b : Phase) : (phaseLe a b || phaseLe b a) = true := by
  rw [Bool.or_eq_true, phaseLe_iff, phaseLe_iff]
  omega

/-- The ids assigned by the reindexing forEach, starting at k. -/
def idsFrom (k : ℕ) : ℕ → List ℤ
  | 0 => []
  | m + 1 => ((k : ℤ) + 1) :: idsFrom (k + 1) m

theorem reassignIds_map_id :
    ∀ (l : List Phase) (k : ℕ),
      (reassignIds l k).map Phase.id = idsFrom k l.length := by
  intro l
  induction l with
  | nil => intro k; rfl
  | cons p ps ih =>
    intro k
    simp only [reassignIds, List.map_cons, List.length_cons, idsFrom, ih]

theorem reassignIds_map_difficulty :
    ∀ (l : List Phase) (k : ℕ),
      (reassignIds l k).map Phase.difficulty = l.map Phase.difficulty := by
  intro l
  induction l with
  | nil => intro k; rfl
  | cons p ps ih =>
    intro k
    simp only [reassignIds, List.map_cons, ih]

theorem reassignIds_length (l : List Phase) (k : ℕ) :
    (reassignIds l k).length = l.length := by
  have h := congrArg List.length (reassignIds_map_difficulty l k)
  simpa using h

/-- C4: Every finished set has exactly ten phases whose array-order ids
are exactly 1..10, sorted by ascending difficulty; the sort input is the
acceptance-order list with ids 1..10, and the sorted list is pairwise
strictly ordered by (difficulty, original acceptance id), so ties are
broken by acceptance order. -/
theorem C4_positions_and_order (s : GState) :
    (generatePhaseSet s).1.phases.length = 10
      ∧ (generatePhaseSet s).1.phases.map Phase.id
          = [1, 2, 3, 4, 5, 6, 7, 8, 9, 10]
      ∧ (generatePhaseSet s).1.phases.Pairwise
          (fun a b => a.difficulty ≤ b.difficulty)
      ∧ (generatePhasesRaw s.fn s.pos).1.map Phase.id
          = [1, 2, 3, 4, 5, 6, 7, 8, 9, 10]
      ∧ ((generatePhasesRaw s.fn s.pos).1.mergeSort phaseLe).Perm
          (generatePhasesRaw s.fn s.pos).1
      ∧ ((generatePhasesRaw s.fn s.pos).1.mergeSort phaseLe).Pairwise
          (fun a b => a.difficulty < b.difficulty
            ∨ (a.difficulty = b.difficulty ∧ a.id < b.id))
      ∧ (generatePhaseSet s).1.phases
          = reassignIds ((generatePhasesRaw s.fn s.pos).1.mergeSort phaseLe) 0 := by
  set raw := (generatePhasesRaw s.fn s.pos).1 with hraw
  have hperm : (raw.mergeSort phaseLe).Perm raw := List.mergeSort_perm raw phaseLe
  have hsorted : (raw.mergeSort phaseLe).Pairwise (fun a b => phaseLe a b = true) :=
    List.sorted_mergeSort phaseLe_trans phaseLe_total raw
  have hids : raw.map Phase.id = [1, 2, 3, 4, 5, 6, 7, 8, 9, 10] := raw_map_id _ _
  have hlenraw : raw.length = 10 := raw_length _ _
  have hlen : (raw.mergeSort phaseLe).length = 10 := hperm.length_eq.trans hlenraw
  have hnodup : (raw.mergeSort phaseLe).Pairwise (fun a b => a.id ≠ b.id) := by
    have h1 : (raw.map Phase.id).Nodup := by rw [hids]; decide
    have h2 : ((raw.mergeSort phaseLe).map Phase.id).Nodup :=
      ((hperm.map Phase.id).nodup_iff).mpr h1
    exact (List.pairwise_map).mp h2
  have hstrict : (raw.mergeSort phaseLe).Pairwise
      (fun a b => a.difficulty < b.difficulty
        ∨ (a.difficulty = b.difficulty ∧ a.id < b.id)) := by
    have := hsorted.and hnodup
    refine this.imp ?_
    intro a b hab
    rw [phaseLe_iff] at hab
    omega
  have hphases : (generatePhaseSet s).1.phases
      = reassignIds (raw.mergeSort phaseLe) 0 := rfl
  refine ⟨?_, ?_, ?_, hids, hperm, hstrict, hphases⟩
  · rw [hphases, reassignIds_length, hlen]
  · rw [hphases, reassignIds_map_id, hlen]
    rfl
  · rw [hphases]
    have hmapd : (reassignIds (raw.mergeSort phaseLe) 0).map Phase.difficulty
        = (raw.mergeSort phaseLe).map Phase.difficulty :=
      reassignIds_map_difficulty _ _
    have hpd : ((raw.mergeSort phaseLe).map Phase.difficulty).Pairwise
        (fun x y => x ≤ y) := by
      refine (List.pairwise_map).mpr (hsorted.imp ?_)
      intro a b hab
      rw [phaseLe_iff] at hab
      omega
    have := hmapd ▸ hpd
    exact (List.pairwise_map).mp this

/-! ## C3: the card-count and difficulty budget invariant -/

/-- Structural invariant of every component accepted into a phase. -/
def CompOK (c : PhaseComponent) : Prop :=
  1 ≤ c.count ∧ c.count ≤ 2

theorem selectComponentCount_bounds (f : ℕ → ℚ) (hf : validStream f)
    (pn : ℤ) (ct : ComponentTypeSpec) (size remaining : ℤ) (n : ℕ) :
    1 ≤ (selectComponentCount f pn ct size remaining n).1
      ∧ (selectComponentCount f pn ct size remaining n).1 ≤ 2 := by
  dsimp only [selectComponentCount]
  split_ifs with h1 h2 h3 h4
  · exact ⟨le_refl _, by norm_num⟩
  · exact ⟨by norm_num, le_refl _⟩
  · exact ⟨le_refl _, by norm_num⟩
  · exact ⟨le_refl _, by norm_num⟩
  · have hlo : (1 : ℤ) ≤ min 2 (max 1 (remaining / size)) :=
      le_min (by norm_num) (le_max_left _ _)
    have hb := gwr_bounds f 1 (min 2 (max 1 (remaining / size))) pn n
      (hf n).1 (hf n).2 hlo
    exact ⟨hb.1, le_trans hb.2 (min_le_left _ _)⟩

theorem selectComponentCount_mul (f : ℕ → ℚ) (hf : validStream f)
    (pn : ℤ) (ct : ComponentTypeSpec) (size remaining : ℤ) (n : ℕ)
    (hs : 0 < size) (hsr : size ≤ remaining) :
    (selectComponentCount f pn ct size remaining n).1 * size ≤ remaining := by
  dsimp only [selectComponentCount]
  split_ifs with h1 h2 h3 h4
  · omega
  · omega
  · omega
  · omega
  · have hdiv1 : (1 : ℤ) ≤ remaining / size := by
      rw [Int.le_ediv_iff_mul_le hs]
      omega
    have hmaxd : max 1 (remaining / size) = remaining / size := max_eq_right hdiv1
    have hlo : (1 : ℤ) ≤ min 2 (max 1 (remaining / size)) :=
      le_min (by norm_num) (le_max_left _ _)
    have hb := gwr_bounds f 1 (min 2 (max 1 (remaining / size))) pn n
      (hf n).1 (hf n).2 hlo
    have hle : (getWeightedRandom f 1 (min 2 (max 1 (remaining / size))) pn n).1
        ≤ remaining / size := le_trans hb.2 (by rw [hmaxd]; exact min_le_right _ _)
    calc (getWeightedRandom f 1 (min 2 (max 1 (remaining / size))) pn n).1 * size
        ≤ remaining / size * size :=
          mul_le_mul_of_nonneg_right hle (le_of_lt hs)
      _ ≤ remaining := Int.ediv_mul_le remaining (ne_of_gt hs)

theorem generatePhaseComponent_facts (f : ℕ → ℚ) (hf : validStream f)
    (pn : ℤ) (ex : List PhaseComponent) (n : ℕ) :
    CompOK (generatePhaseComponent f pn ex n).1
      ∧ 2 ≤ (generatePhaseComponent f pn ex n).1.size
      ∧ (ex = [] →
          (generatePhaseComponent f pn ex n).1.count
            * (generatePhaseComponent f pn ex n).1.size ≤ 9) := by
  have hmem := selectComponentType_mem f pn ex n
  obtain ⟨_, _, h2, hmm, h8⟩ := catalog_entry_facts _ hmem
  unfold generatePhaseComponent
  dsimp only
  set ct := (selectComponentType f pn ex n).1 with hct
  set remaining := max 2 (9 - sumCards ex) with hrem
  set sn := selectComponentSize f pn ct ex remaining (selectComponentType f pn ex n).2
    with hsn
  set size := max ct.minSize (min sn.1 (min remaining ct.maxSize)) with hsize
  have hs2 : 2 ≤ size := le_trans h2 (le_max_left _ _)
  have hcb := selectComponentCount_bounds f hf pn ct size remaining sn.2
  refine ⟨⟨hcb.1, hcb.2⟩, hs2, ?_⟩
  intro hex
  have hrem9 : remaining = 9 := by
    rw [hrem, hex]
    norm_num [sumCards]
  have hsle : size ≤ remaining := by
    rw [hsize, hrem9]
    have hmin : min sn.1 (min 9 ct.maxSize) ≤ ct.maxSize :=
      le_trans (min_le_right _ _) (min_le_right _ _)
    have : max ct.minSize (min sn.1 (min 9 ct.maxSize)) ≤ ct.maxSize :=
      max_le (le_trans hmm (le_refl _)) hmin
    omega
  have hmul := selectComponentCount_mul f hf pn ct size remaining sn.2
    (by omega) hsle
  exact le_trans hmul (le_of_eq hrem9)

theorem buildComponents_invariant (f : ℕ → ℚ) (hf : validStream f) (pn cc : ℤ) :
    ∀ (fuel : ℕ) (i total : ℤ) (comps : List PhaseComponent) (n : ℕ),
      (∀ c ∈ comps, CompOK c) → 0 ≤ total → total ≤ 9 →
      (comps = [] → total = 0) →
      (∀ c ∈ (buildComponents f pn cc fuel i total comps n).1, CompOK c)
        ∧ 0 ≤ (buildComponents f pn cc fuel i total comps n).2.1
        ∧ (buildComponents f pn cc fuel i total comps n).2.1 ≤ 9
        ∧ ((buildComponents f pn cc fuel i total comps n).1 = []
            → (buildComponents f pn cc fuel i total comps n).2.1 = 0) := by
  intro fuel
  induction fuel with
  | zero => intro i total comps n hOK h0 h9 hemp; exact ⟨hOK, h0, h9, hemp⟩
  | succ m ih =>
    intro i total comps n hOK h0 h9 hemp
    obtain ⟨⟨hc1, hc2⟩, hsz, hmul9⟩ := generatePhaseComponent_facts f hf pn comps n
    have hprod : 0 ≤ (generatePhaseComponent f pn comps n).1.count
        * (generatePhaseComponent f pn comps n).1.size :=
      mul_nonneg (by omega) (by omega)
    dsimp only [buildComponents]
    split_ifs with hi h9n h6n hempt h6t hbk
    · -- accepted, enough cards: break
      refine ⟨?_, by dsimp only; omega, h9n, ?_⟩
      · intro c hc
        rcases List.mem_append.mp hc with h | h
        · exact hOK c h
        · rw [List.mem_singleton.mp h]; exact ⟨hc1, hc2⟩
      · intro habs
        exact absurd habs (by simp)
    · -- accepted, still short: recurse
      refine ih (i + 1) _ _ _ ?_ (by omega) h9n ?_
      · intro c hc
        rcases List.mem_append.mp hc with h | h
        · exact hOK c h
        · rw [List.mem_singleton.mp h]; exact ⟨hc1, hc2⟩
      · intro habs
        exact absurd habs (by simp)
    · -- first component over budget: unreachable under valid draws
      exfalso
      have hnil := List.isEmpty_iff.mp hempt
      have := hmul9 hnil
      have := hemp hnil
      omega
    · exfalso
      have hnil := List.isEmpty_iff.mp hempt
      have := hmul9 hnil
      have := hemp hnil
      omega
    · -- rejected, break check fires
      exact ⟨hOK, h0, h9, hemp⟩
    · -- rejected, keep trying
      exact ih i total comps _ hOK h0 h9 hemp
    · -- component target reached
      exact ⟨hOK, h0, h9, hemp⟩

theorem mul_ceil_le (x c : ℤ) (hc : 1 ≤ c) :
    c * ⌈((x : ℤ) : ℚ) / ((c : ℤ) : ℚ)⌉ ≤ x + c - 1 := by
  have hc0 : (0 : ℚ) < ((c : ℤ) : ℚ) := by
    have : (0 : ℤ) < c := by omega
    exact_mod_cast this
  have h1 : ((⌈((x : ℤ) : ℚ) / ((c : ℤ) : ℚ)⌉ : ℤ) : ℚ)
      < ((x : ℤ) : ℚ) / ((c : ℤ) : ℚ) + 1 := Int.ceil_lt_add_one _
  have h2 : ((c : ℤ) : ℚ) * ((⌈((x : ℤ) : ℚ) / ((c : ℤ) : ℚ)⌉ : ℤ) : ℚ)
      < ((c : ℤ) : ℚ) * (((x : ℤ) : ℚ) / ((c : ℤ) : ℚ) + 1) :=
    mul_lt_mul_of_pos_left h1 hc0
  have h3 : ((c : ℤ) : ℚ) * (((x : ℤ) : ℚ) / ((c : ℤ) : ℚ) + 1)
      = ((x : ℤ) : ℚ) + ((c : ℤ) : ℚ) := by
    field_simp
  rw [h3] at h2
  have h5 : c * ⌈((x : ℤ) : ℚ) / ((c : ℤ) : ℚ)⌉ < x + c := by exact_mod_cast h2
  omega

theorem expandableIdx_lt (comps : List PhaseComponent)
    (h : ¬ comps.isEmpty = true) : expandableIdx comps < comps.length := by
  dsimp only [expandableIdx]
  split_ifs with h1
  · exact h1
  · cases comps with
    | nil => simp at h
    | cons a l => simp

theorem setComponentSize_OK (comps : List PhaseComponent) (idx : ℕ)
    (newSize : ℤ) (hOK : ∀ c ∈ comps, CompOK c)
    (hdOK : CompOK (comps.getD idx defaultComponent)) :
    ∀ c ∈ setComponentSize comps idx newSize, CompOK c := by
  intro c hc
  unfold setComponentSize at hc
  rcases List.mem_or_eq_of_mem_set hc with h | h
  · exact hOK c h
  · rw [h]
    exact hdOK

theorem adjustComponents_le9 :
    ∀ (fuel : ℕ) (comps : List PhaseComponent) (total : ℤ),
      (∀ c ∈ comps, CompOK c) → total ≤ 9 →
      (adjustComponents fuel comps total).2 ≤ 9 := by
  intro fuel
  induction fuel with
  | zero => intro comps total hOK h9; exact h9
  | succ m ih =>
    intro comps total hOK h9
    dsimp only [adjustComponents]
    split_ifs with hcond hlt hset
    · -- expand a matching-set component
      set c := comps.getD (expandableIdx comps) defaultComponent with hcdef
      have hcOK : CompOK c :=
        hOK c (getD_mem_of_lt (expandableIdx_lt comps hcond.2) _)
      obtain ⟨hq1, hq2⟩ := hcOK
      refine ih _ _ (setComponentSize_OK comps _ _ hOK ⟨hq1, hq2⟩) ?_
      have hstep : c.count * min 4 (c.size + 1) ≤ c.count * (c.size + 1) :=
        mul_le_mul_of_nonneg_left (min_le_right _ _) (by omega)
      have hcs : c.count * (c.size + 1) = c.count * c.size + c.count := by ring
      omega
    · -- expand any other component
      set c := comps.getD (expandableIdx comps) defaultComponent with hcdef
      have hcOK : CompOK c :=
        hOK c (getD_mem_of_lt (expandableIdx_lt comps hcond.2) _)
      obtain ⟨hq1, hq2⟩ := hcOK
      refine ih _ _ (setComponentSize_OK comps _ _ hOK ⟨hq1, hq2⟩) ?_
      have hceil := mul_ceil_le (6 - total) c.count hq1
      have hstep : c.count
            * min (min 9 (9 - (total - c.count * c.size)))
                (c.size + ⌈((6 - total : ℤ) : ℚ) / ((c.count : ℤ) : ℚ)⌉)
          ≤ c.count * (c.size + ⌈((6 - total : ℤ) : ℚ) / ((c.count : ℤ) : ℚ)⌉) :=
        mul_le_mul_of_nonneg_left (min_le_right _ _) (by omega)
      have hcs : c.count * (c.size + ⌈((6 - total : ℤ) : ℚ) / ((c.count : ℤ) : ℚ)⌉)
          = c.count * c.size + c.count * ⌈((6 - total : ℤ) : ℚ) / ((c.count : ℤ) : ℚ)⌉ := by
        ring
      omega
    · -- no expansion possible: canonical fallback
      norm_num
    · exact h9

theorem recoverComponents_bounds (comps : List PhaseComponent) (total : ℤ)
    (hOK : ∀ c ∈ comps, CompOK c) (h9 : total ≤ 9) :
    6 ≤ (recoverComponents comps total).2
      ∧ (recoverComponents comps total).2 ≤ 9 := by
  dsimp only [recoverComponents]
  split_ifs with h1 h2 h3
  · exact ⟨le_refl _, by norm_num⟩
  · exact ⟨le_refl _, by norm_num⟩
  · have := adjustComponents_le9 10 comps total hOK h9
    exact ⟨by omega, this⟩
  · exact ⟨by omega, h9⟩

theorem generateSinglePhase_bounds (f : ℕ → ℚ) (hf : validStream f)
    (pn : ℤ) (n : ℕ) :
    6 ≤ (generateSinglePhase f pn n).1.cardCount
      ∧ (generateSinglePhase f pn n).1.cardCount ≤ 9
      ∧ 1 ≤ (generateSinglePhase f pn n).1.difficulty
      ∧ (generateSinglePhase f pn n).1.difficulty ≤ 10 := by
  have hb := buildComponents_invariant f hf pn
    (selectComponentCountTarget f pn n).1 20 0 0 []
    (selectComponentCountTarget f pn n).2
    (by intro c hc; cases hc) (le_refl 0) (by norm_num) (fun _ => rfl)
  have hr := recoverComponents_bounds _ _ hb.1 hb.2.2.1
  have hd := calculateDifficulty_bounds
    (((recoverComponents
        (buildComponents f pn (selectComponentCountTarget f pn n).1 20 0 0 []
          (selectComponentCountTarget f pn n).2).1
        (buildComponents f pn (selectComponentCountTarget f pn n).1 20 0 0 []
          (selectComponentCountTarget f pn n).2).2.1).1).mergeSort componentLe)
  exact ⟨hr.1, hr.2, hd.1, hd.2⟩

/-- The budget invariant of a phase. -/
def GoodPhase (p : Phase) : Prop :=
  6 ≤ p.cardCount ∧ p.cardCount ≤ 9 ∧ 1 ≤ p.difficulty ∧ p.difficulty ≤ 10

theorem generateSinglePhase_good (f : ℕ → ℚ) (hf : validStream f)
    (pn : ℤ) (n : ℕ) : GoodPhase (generateSinglePhase f pn n).1 :=
  generateSinglePhase_bounds f hf pn n

theorem variationStep_good (o p : Phase) (hid : 1 ≤ o.id)
    (hod : 1 ≤ o.difficulty ∧ o.difficulty ≤ 10) (hp : GoodPhase p) :
    GoodPhase (variationStep o p) := by
  obtain ⟨h1, h2, h3, h4⟩ := hp
  have hm0 : 0 ≤ Int.tmod o.id 4 := Int.tmod_nonneg 4 (by omega)
  have hm4 : Int.tmod o.id 4 < 4 := Int.tmod_lt_of_pos o.id (by norm_num)
  have hmin1 : (1 : ℤ) ≤ min 10 (o.difficulty + 1) := le_min (by norm_num) (by omega)
  have hmin10 : min (10 : ℤ) (o.difficulty + 1) ≤ 10 := min_le_left _ _
  unfold variationStep GoodPhase
  split_ifs with hlt hgt <;> refine ⟨?_, ?_, ?_, ?_⟩ <;> dsimp only <;> omega

theorem variationLoop_good (o : Phase) (ex : List Phase) (hid : 1 ≤ o.id)
    (hod : 1 ≤ o.difficulty ∧ o.difficulty ≤ 10) :
    ∀ fuel p, GoodPhase p → GoodPhase (variationLoop o ex fuel p) := by
  intro fuel
  induction fuel with
  | zero => exact fun p hp => hp
  | succ m ih =>
    intro p hp
    unfold variationLoop
    split
    · exact ih _ (variationStep_good o p hid hod hp)
    · exact hp

theorem createVariationOfPhase_good (o : Phase) (ex : List Phase)
    (hid : 1 ≤ o.id) (ho : GoodPhase o) :
    GoodPhase (createVariationOfPhase o ex) :=
  variationLoop_good o ex hid ⟨ho.2.2.1, ho.2.2.2⟩ 5 o ho

theorem attemptLoop_good (f : ℕ → ℚ) (hf : validStream f) (i : ℤ)
    (phases : List Phase) :
    ∀ fuel (best : Option Phase) n, (∀ b, best = some b → GoodPhase b) →
      ∀ p, (attemptLoop f i phases fuel best n).1 = some p → GoodPhase p := by
  intro fuel
  induction fuel with
  | zero => exact fun best n hb p hp => hb p hp
  | succ m ih =>
    intro best n hb p hp
    simp only [attemptLoop] at hp
    split at hp
    · exact ih best _ hb p hp
    · split at hp
      · rw [← Option.some.inj hp]
        exact generateSinglePhase_good f hf i n
      · refine ih _ _ ?_ p hp
        intro b hb1
        rcases best with _ | b0
        · rw [← Option.some.inj hb1]
          exact generateSinglePhase_good f hf i n
        · simp only at hb1
          split at hb1
          · rw [← Option.some.inj hb1]
            exact generateSinglePhase_good f hf i n
          · rw [← Option.some.inj hb1]
            exact hb b0 rfl

theorem dupLoop_good (f : ℕ → ℚ) (hf : validStream f) (i : ℤ)
    (phases : List Phase) :
    ∀ fuel p n, GoodPhase p → GoodPhase (dupLoop f i phases fuel p n).1 := by
  intro fuel
  induction fuel with
  | zero => exact fun p n hp => hp
  | succ m ih =>
    intro p n hp
    unfold dupLoop
    split
    · exact ih _ _ (generateSinglePhase_good f hf i n)
    · exact hp

theorem generateForPosition_good (f : ℕ → ℚ) (hf : validStream f) (i : ℤ)
    (phases : List Phase) (n : ℕ) (hi : 1 ≤ i) :
    GoodPhase (generateForPosition f i phases n).1 := by
  have key : ∀ (q : Phase) (m : ℕ), q.id = i → GoodPhase q →
      GoodPhase (if isDuplicatePhase (dupLoop f i phases 10 q m).1 phases = true
        then createVariationOfPhase (dupLoop f i phases 10 q m).1 phases
        else (dupLoop f i phases 10 q m).1) := by
    intro q m hq hgood
    have hd := dupLoop_good f hf i phases 10 q m hgood
    have hdid : (dupLoop f i phases 10 q m).1.id = i := dupLoop_id f i phases 10 q m hq
    split
    · exact createVariationOfPhase_good _ phases (by omega) hd
    · exact hd
  unfold generateForPosition
  rcases h : (attemptLoop f i phases 20 none n).1 with _ | p
  · simp only [h]
    exact key _ _ rfl (generateSinglePhase_good f hf i _)
  · simp only [h]
    exact key _ _ (attemptLoop_id f i phases 20 none n (fun b hb => by cases hb) p h)
      (attemptLoop_good f hf i phases 20 none n (fun b hb => by cases hb) p h)

theorem positionLoop_good (f : ℕ → ℚ) (hf : validStream f) :
    ∀ (L : List ℤ) (acc : List Phase) (n : ℕ), (∀ i ∈ L, 1 ≤ i) →
      (∀ p ∈ acc, GoodPhase p) →
      ∀ p ∈ (positionLoop f L acc n).1, GoodPhase p := by
  intro L
  induction L with
  | nil => intro acc n hL hacc; exact hacc
  | cons i rest ih =>
    intro acc n hL hacc
    simp only [positionLoop]
    refine ih _ _ (fun j hj => hL j (List.mem_cons_of_mem i hj)) ?_
    intro p hp
    rcases List.mem_append.mp hp with h | h
    · exact hacc p h
    · rw [List.mem_singleton.mp h]
      exact generateForPosition_good f hf i acc n (hL i (List.mem_cons_self i rest))

theorem reassignIds_mem :
    ∀ (l : List Phase) (k : ℕ) (q : Phase), q ∈ reassignIds l k →
      ∃ p ∈ l, q.difficulty = p.difficulty ∧ q.cardCount = p.cardCount := by
  intro l
  induction l with
  | nil => intro k q hq; cases hq
  | cons p ps ih =>
    intro k q hq
    rcases List.mem_cons.mp hq with h | h
    · exact ⟨p, List.mem_cons_self p ps, by rw [h], by rw [h]⟩
    · obtain ⟨p0, hp0, hd, hc⟩ := ih (k + 1) q h
      exact ⟨p0, List.mem_cons_of_mem p hp0, hd, hc⟩

/-- C3: Every phase of every set produced by generatePhaseSet satisfies
6 ≤ cardCount ≤ 9 and 1 ≤ difficulty ≤ 10, for every ambient stream of
legitimate Math.random draws — including phases produced through the
shrink/expand recovery paths and the duplicate-variation transform. -/
theorem C3_budget_invariant (s : GState) (hf : validStream s.fn) :
    ∀ p ∈ (generatePhaseSet s).1.phases,
      6 ≤ p.cardCount ∧ p.cardCount ≤ 9
        ∧ 1 ≤ p.difficulty ∧ p.difficulty ≤ 10 := by
  intro p hp
  have hphases : (generatePhaseSet s).1.phases
      = reassignIds (((generatePhasesRaw s.fn s.pos).1).mergeSort phaseLe) 0 := rfl
  rw [hphases] at hp
  obtain ⟨q, hq, hd, hc⟩ := reassignIds_mem _ 0 p hp
  have hqraw : q ∈ (generatePhasesRaw s.fn s.pos).1 :=
    (List.mergeSort_perm (generatePhasesRaw s.fn s.pos).1 phaseLe).mem_iff.mp hq
  have hgood : GoodPhase q := by
    refine positionLoop_good s.fn hf [1, 2, 3, 4, 5, 6, 7, 8, 9, 10] [] s.pos
      ?_ (fun r hr => absurd hr (List.not_mem_nil r)) q hqraw
    intro i hi
    fin_cases hi <;> norm_num
  obtain ⟨g1, g2, g3, g4⟩ := hgood
  exact ⟨by omega, by omega, by omega, by omega⟩

/-- Witness for C3: the all-zero draw stream is valid, and every phase
of the set generated from it satisfies the budget invariant. -/
theorem C3_witness :
    validStream (fun _ => 0)
      ∧ ∀ p ∈ (generatePhaseSet ⟨fun _ => 0, 0, 0⟩).1.phases,
          6 ≤ p.cardCount ∧ p.cardCount ≤ 9
            ∧ 1 ≤ p.difficulty ∧ p.difficulty ≤ 10 :=
  ⟨fun k => by norm_num,
    C3_budget_invariant ⟨fun _ => 0, 0, 0⟩ (fun k => by norm_num)⟩


/-! ## C9: shape of freshly generated identifiers and reroll tokens -/

theorem base36FracDigits_succ (q : ℚ) (k : ℕ) :
    base36FracDigits q (k + 1)
      = (⌊q * 36⌋).toNat :: base36FracDigits (q * 36 - (((⌊q * 36⌋).toNat : ℕ) : ℚ)) k :=
  rfl

theorem base36FracDigits_zero_draw (k : ℕ) :
    base36FracDigits (0 : ℚ) k = List.replicate k 0 := by
  induction k with
  | zero => rfl
  | succ m ih => simp [base36FracDigits_succ, ih, List.replicate_succ]

theorem base36FracDigits_half : base36FracDigits (1 / 2 : ℚ) 6 = [18, 0, 0, 0, 0, 0] := by
  rw [show (6 : ℕ) = 5 + 1 from rfl, base36FracDigits_succ]
  have h : ⌊(1 / 2 : ℚ) * 36⌋ = 18 := by norm_num
  rw [h]
  have h2 : ((1 / 2 : ℚ) * 36 - (((18 : ℤ).toNat : ℕ) : ℚ)) = 0 := by
    have ht : ((18 : ℤ).toNat : ℕ) = 18 := rfl
    rw [ht]; norm_num
  rw [h2, base36FracDigits_zero_draw]
  rfl

theorem jsRandomToken_half : jsRandomToken (1 / 2 : ℚ) = "i" := by
  have hden : ((1 / 2 : ℚ) * (36 : ℚ) ^ (6 : ℕ)).den = 1 := by
    have h : ((1 / 2 : ℚ) * (36 : ℚ) ^ (6 : ℕ)) = ((1088391168 : ℤ) : ℚ) := by
      norm_num
    rw [h, Rat.den_intCast]
  have hne : (1 / 2 : ℚ) ≠ 0 := by norm_num
  rw [jsRandomToken, if_neg hne]
  simp only [base36FracDigits_half, hden, if_pos]
  rfl

/-- C9 (failing input): a draw of 0.5 renders as "0.i" in base 36, so
generateRerollId yields the one-character token "i" (not six characters)
and generateUniqueId yields "i-i" (first segment shorter than three
characters); a draw of 0 yields the empty token. -/
theorem C9_token_format_failing_input :
    (generateRerollId (fun _ => (1 / 2 : ℚ)) 0).1 = "i"
      ∧ ((generateRerollId (fun _ => (1 / 2 : ℚ)) 0).1).length = 1
      ∧ (generateUniqueId (fun _ => (1 / 2 : ℚ)) 0).1 = "i-i"
      ∧ (generateRerollId (fun _ => (0 : ℚ)) 0).1 = "" := by
  have h1 : (generateRerollId (fun _ => (1 / 2 : ℚ)) 0).1 = "i" := by
    simpa [generateRerollId] using jsRandomToken_half
  refine ⟨h1, by rw [h1]; rfl, ?_, by simp [generateRerollId, jsRandomToken]⟩
  show jsRandomToken (1 / 2 : ℚ) ++ "-" ++ jsRandomToken (1 / 2 : ℚ) = "i-i"
  rw [jsRandomToken_half]
  rfl

end PhaseMaker
